import Mathlib

/-!
Verification development for the sqlite-wasm repository.

The JavaScript source is shallowly embedded in Lean:

* `Router` models `src/wasm-sql/DatabaseManager.js` — the caller-side
  operation-correlation router (`generateOperationId`, `postToWorker`,
  `worker.onmessage`).  `Math.random()` token draws are modelled by a
  stream `R : Nat → String` consumed at a cursor `nextRand`; the JS
  `Map` is an association list with `Map.set` replace-semantics.
* `Worker` models `src/public/DBHelperWorker.js` — the `DbHelper` class
  and the worker-side dispatcher (`self.onmessage`).  The wa-sqlite
  engine is an external collaborator: it is modelled by an oracle
  `EngineBehavior` answering each engine call as a function of the full
  call history (the trace).  A JS `throw` is `JsOut.exn`; a promise
  that never settles (an exception escaping the `new Promise(async …)`
  executor before `resolve`) is `JsOut.hang`.
* `Reader` models `executeRawQuery` of the alternate worker draft
  (`src/unnamed/part_000`, lines 130–178) — the typed multi-statement
  Query Reader; the engine facet it needs is the statement list the
  engine derives from the SQL text (`parse`) together with the column
  names and served rows of each statement.
-/

namespace SqliteWasm

/-- A SQLite value as read back from the engine: the column-type tags of the
C API distinguish integers, floats, text, blobs and null. -/
inductive SQLData where
  | int (n : Int)
  | float (bits : Nat)
  | text (s : String)
  | blob (bs : List Nat)
  | null
deriving DecidableEq

namespace Router

/-- Observable router events: a waiter registered in `pendingOperations`,
the request message posted to the worker, a waiter resolved, a waiter
rejected. -/
inductive REvent where
  | registered (id : String) (waiter : Nat)
  | posted (id : String)
  | resolved (waiter : Nat)
  | rejected (waiter : Nat)
deriving DecidableEq

/-- Router state: the `pendingOperations` map (`operationId ↦` waiter,
waiters named by a `Nat` tag standing for the `(resolve, reject)` pair)
and the cursor into the `Math.random()` stream. -/
structure RState where
  pending : List (String × Nat)
  nextRand : Nat
deriving DecidableEq

/-- `generateOperationId` draws one token from the random stream
(`Math.random().toString(36).substr(2, 9)` in the source) and advances
the cursor. -/
def generateOperationId (R : Nat → String) (n : Nat) : String × Nat :=
  (R n, n + 1)

/-- JS `Map.set`: replaces the binding if the key is present, appends
otherwise. -/
def mapSet : List (String × Nat) → String → Nat → List (String × Nat)
  | [], k, v => [(k, v)]
  | (k', v') :: rest, k, v =>
      if k' = k then (k, v) :: rest else (k', v') :: mapSet rest k v

/-- JS `Map.get` (`none` when absent). -/
def mapGet : List (String × Nat) → String → Option Nat
  | [], _ => none
  | (k', v') :: rest, k => if k' = k then some v' else mapGet rest k

/-- JS `Map.has`. -/
def mapHas (m : List (String × Nat)) (k : String) : Bool :=
  m.any (fun p => p.1 == k)

/-- JS `Map.delete`. -/
def mapDelete (m : List (String × Nat)) (k : String) : List (String × Nat) :=
  m.filter (fun p => p.1 != k)

/-- `postToWorker`: generate an operation id, store the waiter in
`pendingOperations`, then post the message to the worker.  The event
list records the order: register first, then send. -/
def postToWorker (R : Nat → String) (st : RState) (w : Nat) :
    RState × List REvent :=
  let p := generateOperationId R st.nextRand
  (⟨mapSet st.pending p.1 w, p.2⟩, [.registered p.1 w, .posted p.1])

/-- A reply envelope from the worker: the echoed operation id and
whether the `error` field is set (truthy). -/
structure Reply where
  operationId : String
  isError : Bool
deriving DecidableEq

/-- `worker.onmessage`: look the operation id up in `pendingOperations`;
if present, reject on `error` else resolve, then delete the entry;
otherwise do nothing. -/
def onWorkerMessage (st : RState) (msg : Reply) : RState × List REvent :=
  match mapGet st.pending msg.operationId with
  | some w =>
      (⟨mapDelete st.pending msg.operationId, st.nextRand⟩,
       [if msg.isError then REvent.rejected w else REvent.resolved w])
  | none => (st, [])

/-- Issue a sequence of `postToWorker` calls, one per waiter. -/
def postMany (R : Nat → String) (st : RState) : List Nat → RState
  | [] => st
  | w :: ws => postMany R (postToWorker R st w).1 ws

/-- The pending table a sequence of sends builds when every drawn token
is fresh: the i-th waiter sits under the i-th drawn token. -/
def expectedPending (R : Nat → String) (n : Nat) : List Nat → List (String × Nat)
  | [] => []
  | w :: ws => (R n, w) :: expectedPending R (n + 1) ws

end Router

namespace Reader

/-- One statement as the engine materialises it from the SQL text: its
column names and the rows it will serve, one list of values per row. -/
structure StmtSpec where
  cols : List String
  rows : List (List SQLData)
deriving DecidableEq

/-- `sqlite3.column_count`. -/
def column_count (s : StmtSpec) : Nat := s.cols.length

/-- `sqlite3.column_name`. -/
def column_name (s : StmtSpec) (i : Nat) : String := s.cols.getD i ""

/-- `sqlite3.column_type`: the C-API type tags
(INTEGER = 1, FLOAT = 2, TEXT = 3, BLOB = 4, NULL = 5). -/
def column_type : SQLData → Nat
  | .int _ => 1
  | .float _ => 2
  | .text _ => 3
  | .blob _ => 4
  | .null => 5

/-- `sqlite3.column_int`. -/
def column_int : SQLData → Int
  | .int n => n
  | _ => 0

/-- `sqlite3.column_float` (the 64-bit payload is carried opaquely). -/
def column_float : SQLData → Nat
  | .float b => b
  | _ => 0

/-- `sqlite3.column_text`. -/
def column_text : SQLData → String
  | .text s => s
  | _ => ""

/-- `sqlite3.column_blob`. -/
def column_blob : SQLData → List Nat
  | .blob bs => bs
  | _ => []

/-- A JS value placed into a row object. -/
inductive JSVal where
  | jint (n : Int)
  | jfloat (bits : Nat)
  | jtext (s : String)
  | jblob (bs : List Nat)
deriving DecidableEq

/-- The `switch (columnType)` of `executeRawQuery`: dispatch on the
declared type tag; `SQLITE_TEXT` and the `default` case share the
`column_text` branch. -/
def readCell (v : SQLData) : JSVal :=
  match column_type v with
  | 1 => .jint (column_int v)
  | 2 => .jfloat (column_float v)
  | 4 => .jblob (column_blob v)
  | _ => .jtext (column_text v)

/-- A materialised row: the `row[columnNames[i]] = …` assignments in
column order. -/
def buildRow (s : StmtSpec) (vals : List SQLData) : List (String × JSVal) :=
  (List.range (column_count s)).map fun i =>
    (column_name s i, readCell (vals.getD i SQLData.null))

/-- Observable Reader events: `bind_collection` applied to a statement. -/
inductive REvent where
  | bound (args : List String)
deriving DecidableEq

/-- The `while (step(stmt) === SQLITE_ROW)` loop: one row object pushed
onto `records` per served row. -/
def rowLoop (s : StmtSpec) :
    List (List SQLData) → List (List (String × JSVal)) → List (List (String × JSVal))
  | [], records => records
  | r :: rest, records => rowLoop s rest (records ++ [buildRow s r])

/-- The `for await (const stmt of statements(db, sql))` loop:
binds `args` to each statement when non-empty, then drains its rows
into the shared `records` accumulator. -/
def stmtIter (args : List String) :
    List StmtSpec → List (List (String × JSVal)) → List REvent →
    List (List (String × JSVal)) × List REvent
  | [], records, evs => (records, evs)
  | s :: rest, records, evs =>
      let evs' := if args.isEmpty then evs else evs ++ [REvent.bound args]
      stmtIter args rest (rowLoop s s.rows records) evs'

/-- `executeRawQuery` of `src/unnamed/part_000` (lines 130–178): iterate
every statement the engine finds in `sql`, bind `args` when provided,
and collect one typed row object per served row into one list. -/
def executeRawQuery (parse : String → List StmtSpec) (sql : String)
    (args : List String) : List (List (String × JSVal)) × List REvent :=
  stmtIter args (parse sql) [] []

end Reader

namespace Worker

/-- An engine call made by `DbHelper` (`src/public/DBHelperWorker.js`).
`exec` records the handle it is invoked with, so that calls made on a
null or closed handle are visible in the trace. -/
inductive ECall where
  | openV2 (name : String)
  | exec (db : Option Int) (sql : String)
  | prepare (db : Option Int) (sql : String)
  | bindText (idx : Nat) (value : String)
  | step
  | lastInsertRowid
  | stmtGet
  | finalize
  | close (db : Int)
deriving DecidableEq

/-- The engine's answer to one call: a normal return (`ok`, `okInt` for
numeric returns, `okRows` for `exec` with a row callback) or a thrown
`Error` carrying a message. -/
inductive EReply where
  | ok
  | okInt (n : Int)
  | okRows (rs : List (List SQLData × List String))
  | err (msg : String)
deriving DecidableEq

/-- `some msg` when the reply is a thrown error. -/
def asErr : EReply → Option String
  | .err m => some m
  | _ => none

/-- The numeric payload of a reply, when it has one. -/
def asInt : EReply → Option Int
  | .okInt n => some n
  | _ => none

/-- The row payload of a reply, when it has one. -/
def asRows : EReply → Option (List (List SQLData × List String))
  | .okRows rs => some rs
  | _ => none

/-- The engine as an oracle: `reply` answers each call as a function of
the call history; `served` gives the finite row list a compiled select
statement will serve from a given history (the engine is assumed to
serve finitely many rows). -/
structure EngineBehavior where
  reply : List ECall → ECall → EReply
  served : List ECall → List (List SQLData)

/-- Make one engine call: query the oracle and append the call to the
trace. -/
def callE (B : EngineBehavior) (tr : List ECall) (c : ECall) :
    EReply × List ECall :=
  (B.reply tr c, tr ++ [c])

/-- The outcome of a JS async call: the promise resolved (`ok`), the
promise rejected / the function threw (`exn`), or the promise never
settles (`hang` — an exception escaping a `new Promise(async …)`
executor before `resolve` is called). -/
inductive JsOut (α : Type) where
  | ok (a : α)
  | exn (msg : String)
  | hang
deriving DecidableEq

/-- One entry of the `statements` argument of
`executePreparedStatements`: `{query, values}`. -/
structure Stmt where
  query : String
  values : List String
deriving DecidableEq

/-- The `DbHelper` instance state: its database name and the `db`
field (`null` before `initializeDatabase` assigns it; never reset). -/
structure Helper where
  databaseName : String
  db : Option Int
deriving DecidableEq

/-- The `for (let i = 0; i < values.length; i++) bind_text(i + 1, v)`
loop of `compileAndBindSQLiteStatement`; a throwing bind propagates. -/
def bindLoop (B : EngineBehavior) (tr : List ECall) (i : Nat) :
    List String → JsOut Unit × List ECall
  | [] => (.ok (), tr)
  | v :: rest =>
      let r := callE B tr (.bindText i v)
      match asErr r.1 with
      | some m => (.exn m, r.2)
      | none => bindLoop B r.2 (i + 1) rest

/-- `compileAndBindSQLiteStatement`: `prepare(this.db, sqlQuery)` then
bind every value positionally (1-indexed).  Compile and bind errors
propagate as exceptions — nothing here catches them. -/
def compileAndBindSQLiteStatement (B : EngineBehavior) (st : Helper)
    (tr : List ECall) (q : String) (vs : List String) :
    JsOut Unit × List ECall :=
  let r := callE B tr (.prepare st.db q)
  match asErr r.1 with
  | some m => (.exn m, r.2)
  | none => bindLoop B r.2 1 vs

/-- The `finally { await finalize(); resolve([runError, lastID]) }` tail
of `executePreparedStatement`: if `finalize` itself throws, `resolve`
is never reached and the promise never settles. -/
def finalizeAndResolve (B : EngineBehavior) (tr : List ECall)
    (p : Option String × Option Int) :
    JsOut (Option String × Option Int) × List ECall :=
  let r := callE B tr .finalize
  match asErr r.1 with
  | some _ => (.hang, r.2)
  | none => (.ok p, r.2)

/-- `executePreparedStatement` (lines 90–107): a `new Promise(async
(resolve) => …)` executor.  Compile/bind failures happen before the
`try`, so they escape the executor and the promise never settles
(`hang`).  Step and `lastInsertRowid` failures are caught into the
`error` slot; `finalize` runs in the `finally`. -/
def executePreparedStatement (B : EngineBehavior) (st : Helper)
    (tr : List ECall) (q : String) (vs : List String) :
    JsOut (Option String × Option Int) × List ECall :=
  match compileAndBindSQLiteStatement B st tr q vs with
  | (.exn _, tr1) => (.hang, tr1)
  | (.hang, tr1) => (.hang, tr1)
  | (.ok _, tr1) =>
      let rs := callE B tr1 .step
      match asErr rs.1 with
      | some m => finalizeAndResolve B rs.2 (some m, none)
      | none =>
          let rl := callE B rs.2 .lastInsertRowid
          match asErr rl.1 with
          | some m => finalizeAndResolve B rl.2 (some m, none)
          | none => finalizeAndResolve B rl.2 (none, asInt rl.1)

/-- The `for (let statement of statements)` loop of
`executePreparedStatements`: run each statement through the pipeline;
`if (error) throw error` — note the JS truthiness test, an empty error
string does not trigger the throw — else push `lastID`. -/
def stmtLoop (B : EngineBehavior) (st : Helper) (tr : List ECall) :
    List Stmt → List (Option Int) → JsOut (List (Option Int)) × List ECall
  | [], acc => (.ok acc, tr)
  | s :: rest, acc =>
      match executePreparedStatement B st tr s.query s.values with
      | (.hang, tr') => (.hang, tr')
      | (.exn m, tr') => (.exn m, tr')
      | (.ok (e?, lid), tr') =>
          match e? with
          | some m =>
              if m = "" then stmtLoop B st tr' rest (acc ++ [lid])
              else (.exn m, tr')
          | none => stmtLoop B st tr' rest (acc ++ [lid])

/-- The `catch` block of `executePreparedStatements`: `ROLLBACK` when
`rollbackOnError`, then `return [error, null]`; a throwing `ROLLBACK`
exec escapes the catch and rejects the whole call. -/
def catchBlock (B : EngineBehavior) (st : Helper) (tr : List ECall)
    (rbFlag : Bool) (e : String) :
    JsOut (Option String × Option (List (Option Int))) × List ECall :=
  if rbFlag then
    let r := callE B tr (.exec st.db "ROLLBACK;")
    match asErr r.1 with
    | some m2 => (.exn m2, r.2)
    | none => (.ok (some e, none), r.2)
  else (.ok (some e, none), tr)

/-- `executePreparedStatements` (lines 71–88): BEGIN, pipeline each
statement collecting `lastID`s, COMMIT, return `[null, ids]`; on a
caught failure `ROLLBACK` if requested and return `[error, null]`.
Note: unlike its siblings it performs no `this.db` null check. -/
def executePreparedStatements (B : EngineBehavior) (st : Helper)
    (tr : List ECall) (stmts : List Stmt) (rbFlag : Bool) :
    JsOut (Option String × Option (List (Option Int))) × List ECall :=
  let r1 := callE B tr (.exec st.db "BEGIN TRANSACTION;")
  match asErr r1.1 with
  | some m => catchBlock B st r1.2 rbFlag m
  | none =>
      match stmtLoop B st r1.2 stmts [] with
      | (.hang, tr2) => (.hang, tr2)
      | (.exn m, tr2) => catchBlock B st tr2 rbFlag m
      | (.ok ids, tr2) =>
          let rc := callE B tr2 (.exec st.db "COMMIT;")
          match asErr rc.1 with
          | some m => catchBlock B st rc.2 rbFlag m
          | none => (.ok (none, some ids), rc.2)

/-- The `for (let query of queries)` loop of `executeQueries`. -/
def qLoop (B : EngineBehavior) (st : Helper) (tr : List ECall) :
    List String → JsOut Unit × List ECall
  | [] => (.ok (), tr)
  | q :: rest =>
      let r := callE B tr (.exec st.db q)
      match asErr r.1 with
      | some m => (.exn m, r.2)
      | none => qLoop B st r.2 rest

/-- The `catch` block of `executeQueries`: with `rollbackOnError`,
`ROLLBACK` then throw the wrapping message; without it, the failure is
logged and swallowed (the call returns normally, the loop does not
resume). -/
def qCatch (B : EngineBehavior) (st : Helper) (tr : List ECall)
    (rbFlag : Bool) (m : String) : JsOut Unit × List ECall :=
  if rbFlag then
    let r := callE B tr (.exec st.db "ROLLBACK;")
    match asErr r.1 with
    | some m2 => (.exn m2, r.2)
    | none => (.exn ("Transaction failed, rolled back: " ++ m), r.2)
  else (.ok (), tr)

/-- `executeQueries` (lines 52–69): fail fast when `this.db` is null,
else BEGIN, exec each query in order, COMMIT; failures go to `qCatch`. -/
def executeQueries (B : EngineBehavior) (st : Helper) (tr : List ECall)
    (queries : List String) (rbFlag : Bool) : JsOut Unit × List ECall :=
  match st.db with
  | none => (.exn "Database not initialized", tr)
  | some _ =>
      let r1 := callE B tr (.exec st.db "BEGIN TRANSACTION;")
      match asErr r1.1 with
      | some m => qCatch B st r1.2 rbFlag m
      | none =>
          match qLoop B st r1.2 queries with
          | (.exn m, tr2) => qCatch B st tr2 rbFlag m
          | (.hang, tr2) => (.hang, tr2)
          | (.ok _, tr2) =>
              let rc := callE B tr2 (.exec st.db "COMMIT;")
              match asErr rc.1 with
              | some m => qCatch B st rc.2 rbFlag m
              | none => (.ok (), rc.2)

/-- `executeRawQuery` (lines 33–44): fail fast when `this.db` is null,
else `exec(this.db, sql, cb)` collecting `{row, columns}` pairs; a
failure is rethrown wrapped.  (The `selectionArgs` parameter of the
source is never used by the body and is omitted; the JS wrapping
stringifies the `Error`, modelled as its message.) -/
def executeRawQuery (B : EngineBehavior) (st : Helper) (tr : List ECall)
    (sql : String) : JsOut (List (List SQLData × List String)) × List ECall :=
  match st.db with
  | none => (.exn "Database not initialized", tr)
  | some _ =>
      let r := callE B tr (.exec st.db sql)
      match asErr r.1 with
      | some m => (.exn ("Query failed: " ++ m), r.2)
      | none => (.ok ((asRows r.1).getD []), r.2)

/-- `closeDatabase` (lines 152–157): `if (this.db) await close(this.db)`.
The method never assigns `this.db`, so the returned helper state is the
input state unchanged. -/
def closeDatabase (B : EngineBehavior) (st : Helper) (tr : List ECall) :
    JsOut Unit × Helper × List ECall :=
  match st.db with
  | none => (.ok (), st, tr)
  | some h =>
      let r := callE B tr (.close h)
      match asErr r.1 with
      | some m => (.exn m, st, r.2)
      | none => (.ok (), st, r.2)

/-- `setMaxSqlCacheSize`: `if (this.db) exec(PRAGMA cache_size = 100)`.
The dispatcher calls it without `await`, so the reply is ignored; only
the call itself is recorded. -/
def setMaxSqlCacheSize (B : EngineBehavior) (st : Helper) (tr : List ECall) :
    List ECall :=
  match st.db with
  | none => tr
  | some _ => (callE B tr (.exec st.db "PRAGMA cache_size = 100;")).2

/-- `DbHelper.createDBConnection`: construct the helper, open the
database via `open_v2` (the module factory and VFS registration are
external and not modelled), assign `this.db` on success, then fire
`setMaxSqlCacheSize`.  A non-numeric open reply leaves `db` unset
(JS would assign `undefined`). -/
def createDBConnection (B : EngineBehavior) (tr : List ECall)
    (databaseName : String) : JsOut Helper × List ECall :=
  let r := callE B tr (.openV2 databaseName)
  match asErr r.1 with
  | some m => (.exn m, r.2)
  | none =>
      let st : Helper := ⟨databaseName, asInt r.1⟩
      (.ok st, setMaxSqlCacheSize B st r.2)

/-- `isTableFound` (lines 142–150): exec a schema-catalog query and
invoke the callback once with `(null, result.length > 0)` or
`(err, false)`.  The callback is the caller's arrow function; its
arguments are returned so the caller can apply its effect. -/
def isTableFound (B : EngineBehavior) (st : Helper) (tr : List ECall)
    (tableName : String) : (Option String × Bool) × List ECall :=
  let sq : String := String.mk [Char.ofNat 39]
  let q := "SELECT DISTINCT tbl_name FROM sqlite_master WHERE tbl_name = "
             ++ sq ++ tableName ++ sq
  let r := callE B tr (.exec st.db q)
  match asErr r.1 with
  | some m => ((some m, false), r.2)
  | none => ((none, decide (((asRows r.1).getD []).length > 0)), r.2)

/-- The message of the `TypeError` raised when the undefined callback of
`executeSelectPreparedStatements` is invoked (the dispatcher passes no
callback), and when a method is invoked on an undefined `dbInstance`. -/
def undefinedCallMsg : String := "Cannot read properties of undefined"

/-- The `step`/`get` calls of the `while (preparedStatement.step())`
loop, one pair per served row plus the final falsy `step`. -/
def selectLoopCalls : List (List SQLData) → List ECall
  | [] => [ECall.step]
  | _ :: rest => ECall.step :: ECall.stmtGet :: selectLoopCalls rest

/-- `executeSelectPreparedStatements` (lines 127–140): compile-and-bind
(errors escape this plain async method as a normal rejection), drain the
statement's rows, then invoke the callback; with the callback undefined
(`cb = none`, as at the dispatcher call site) both the `try` and the
`catch` invocations throw a `TypeError`, which propagates after the
`finally` has finalized the statement; a throwing `finalize` replaces
it. -/
def executeSelectPreparedStatements (B : EngineBehavior) (st : Helper)
    (tr : List ECall) (sql : String) (args : List String)
    (cb : Option Unit) : JsOut Unit × List ECall :=
  match compileAndBindSQLiteStatement B st tr sql args with
  | (.exn m, tr1) => (.exn m, tr1)
  | (.hang, tr1) => (.hang, tr1)
  | (.ok _, tr1) =>
      let tr2 := tr1 ++ selectLoopCalls (B.served tr1)
      let r := callE B tr2 .finalize
      match asErr r.1 with
      | some m => (.exn m, r.2)
      | none =>
          match cb with
          | none => (.exn undefinedCallMsg, r.2)
          | some _ => (.ok (), r.2)

/-- A command message received by the dispatcher; the fields it
destructures from `event.data`. -/
structure InMsg where
  action : String
  dbName : String
  sql : String
  queries : List String
  statements : List Stmt
  selectionArgs : List String
  rollbackOnError : Bool
  operationId : String
deriving DecidableEq

/-- The `result` payload the dispatcher builds per branch. -/
inductive RVal where
  | successMsg (success : Bool) (message : String)
  | rows (rs : List (List SQLData × List String))
  | pair (e : Option String) (ids : Option (List (Option Int)))
  | successOnly (b : Bool)
  | undefinedVal
  | unknownAction
deriving DecidableEq

/-- A reply the worker posts: a result envelope or an error envelope,
both tagged with the operation id. -/
inductive OutMsg where
  | result (operationId : String) (v : RVal)
  | error (operationId : String) (msg : String)
deriving DecidableEq

/-- The operation id a posted message carries. -/
def outOpId : OutMsg → String
  | .result i _ => i
  | .error i _ => i

/-- What one `self.onmessage` invocation does: posts exactly one reply,
or never completes (an awaited promise that never settles). -/
inductive DispatchOut where
  | posted (msg : OutMsg)
  | hung
deriving DecidableEq

/-- The `switch (action)` body of `self.onmessage`: run the matching
`DbHelper` operation and build the `result` payload; `dbInstance` is
assigned only by a successful `createDBConnection`; invoking a method on
an undefined `dbInstance` throws.  Unknown actions yield the
`{error: 'Unknown action'}` result payload (a result envelope, not an
error envelope). -/
def dispatchStep (B : EngineBehavior) (inst : Option Helper)
    (tr : List ECall) (m : InMsg) :
    JsOut RVal × Option Helper × List ECall :=
  match m.action with
  | "createDBConnection" =>
      match createDBConnection B tr m.dbName with
      | (.ok st, tr') =>
          (.ok (.successMsg true ("Database " ++ m.dbName ++ " created")),
           some st, tr')
      | (.exn e, tr') => (.exn e, inst, tr')
      | (.hang, tr') => (.hang, inst, tr')
  | "executeRawQuery" =>
      match inst with
      | none => (.exn undefinedCallMsg, inst, tr)
      | some st =>
          match executeRawQuery B st tr m.sql with
          | (.ok rs, tr') => (.ok (.rows rs), inst, tr')
          | (.exn e, tr') => (.exn e, inst, tr')
          | (.hang, tr') => (.hang, inst, tr')
  | "executeQueries" =>
      match inst with
      | none => (.exn undefinedCallMsg, inst, tr)
      | some st =>
          match executeQueries B st tr m.queries m.rollbackOnError with
          | (.ok _, tr') =>
              (.ok (.successMsg true "Queries executed successfully"), inst, tr')
          | (.exn e, tr') => (.exn e, inst, tr')
          | (.hang, tr') => (.hang, inst, tr')
  | "executePreparedStatements" =>
      match inst with
      | none => (.exn undefinedCallMsg, inst, tr)
      | some st =>
          match executePreparedStatements B st tr m.statements
              m.rollbackOnError with
          | (.ok p, tr') => (.ok (.pair p.1 p.2), inst, tr')
          | (.exn e, tr') => (.exn e, inst, tr')
          | (.hang, tr') => (.hang, inst, tr')
  | "executeSelectPreparedStatements" =>
      match inst with
      | none => (.exn undefinedCallMsg, inst, tr)
      | some st =>
          match executeSelectPreparedStatements B st tr m.sql
              m.selectionArgs none with
          | (.ok _, tr') => (.ok .undefinedVal, inst, tr')
          | (.exn e, tr') => (.exn e, inst, tr')
          | (.hang, tr') => (.hang, inst, tr')
  | "isTableFound" =>
      match inst with
      | none => (.exn undefinedCallMsg, inst, tr)
      | some st =>
          let r := isTableFound B st tr m.dbName
          (.ok (.successOnly r.1.2), inst, r.2)
  | "closeDatabase" =>
      match inst with
      | none => (.exn undefinedCallMsg, inst, tr)
      | some st =>
          match closeDatabase B st tr with
          | (.ok _, st', tr') =>
              (.ok (.successMsg true "Database closed successfully"),
               some st', tr')
          | (.exn e, st', tr') => (.exn e, some st', tr')
          | (.hang, st', tr') => (.hang, some st', tr')
  | _ => (.ok .unknownAction, inst, tr)

/-- `self.onmessage` (lines 161–201): run the switch inside `try`; a
normal outcome is posted as `{operationId, result}`, a caught failure
as `{operationId, error: message}`; an awaited promise that never
settles leaves the handler suspended and nothing is posted. -/
def onmessage (B : EngineBehavior) (inst : Option Helper)
    (tr : List ECall) (m : InMsg) :
    DispatchOut × Option Helper × List ECall :=
  match dispatchStep B inst tr m with
  | (.ok v, i', tr') => (.posted (.result m.operationId v), i', tr')
  | (.exn e, i', tr') => (.posted (.error m.operationId e), i', tr')
  | (.hang, i', tr') => (.hung, i', tr')

/-- Calls belonging to the single-statement pipeline (everything the
pipeline touches; in particular, never an `exec`). -/
def isPipeCall : ECall → Bool
  | .prepare _ _ => true
  | .bindText _ _ => true
  | .step => true
  | .lastInsertRowid => true
  | .finalize => true
  | _ => false

/-- Recognise a `prepare` call in a trace. -/
def isPrepareCall : ECall → Bool
  | .prepare _ _ => true
  | _ => false

/-- Recognise a `finalize` call in a trace. -/
def isFinalizeCall : ECall → Bool
  | .finalize => true
  | _ => false

/-- Recognise the executor's own `COMMIT` exec in a trace. -/
def isCommitCall : ECall → Bool
  | .exec _ s => s == "COMMIT;"
  | _ => false

/-- Recognise the executor's own `ROLLBACK` exec in a trace. -/
def isRollbackCall : ECall → Bool
  | .exec _ s => s == "ROLLBACK;"
  | _ => false

/-- Every statement of the batch settles through the pipeline with a
null error slot (a genuine success), reporting its `lastID`; the trace
is threaded from statement to statement. -/
inductive BatchOk (B : EngineBehavior) (st : Helper) :
    List ECall → List Stmt → List (Option Int) → List ECall → Prop where
  | nil (tr : List ECall) : BatchOk B st tr [] [] tr
  | cons {tr : List ECall} {s : Stmt} {rest : List Stmt} {lid : Option Int}
      {ids : List (Option Int)} {tr' tr'' : List ECall} :
      executePreparedStatement B st tr s.query s.values
        = (.ok (none, lid), tr') →
      BatchOk B st tr' rest ids tr'' →
      BatchOk B st tr (s :: rest) (lid :: ids) tr''

/-- The first k statements settle with a falsy error slot (null or the
empty string — JS truthiness), then statement k settles with a truthy
(non-empty) error message e. -/
inductive BatchFail (B : EngineBehavior) (st : Helper) :
    List ECall → List Stmt → Nat → String → List ECall → Prop where
  | hd {tr : List ECall} {s : Stmt} {rest : List Stmt} {e : String}
      {lid : Option Int} {tr' : List ECall} :
      executePreparedStatement B st tr s.query s.values
        = (.ok (some e, lid), tr') →
      e ≠ "" →
      BatchFail B st tr (s :: rest) 0 e tr'
  | tl {tr : List ECall} {s : Stmt} {rest : List Stmt} {k : Nat} {e : String}
      {lid : Option Int} {slot : Option String} {tr' tr'' : List ECall} :
      executePreparedStatement B st tr s.query s.values
        = (.ok (slot, lid), tr') →
      (slot = none ∨ slot = some "") →
      BatchFail B st tr' rest k e tr'' →
      BatchFail B st tr (s :: rest) (k + 1) e tr''

/-- Every query in the list execs without throwing, threading the
trace. -/
inductive ExecAllOk (B : EngineBehavior) (st : Helper) :
    List ECall → List String → List ECall → Prop where
  | nil (tr : List ECall) : ExecAllOk B st tr [] tr
  | cons {tr : List ECall} {q : String} {rest : List String}
      {tr'' : List ECall} :
      asErr (B.reply tr (.exec st.db q)) = none →
      ExecAllOk B st (tr ++ [.exec st.db q]) rest tr'' →
      ExecAllOk B st tr (q :: rest) tr''

/-- A concrete engine behavior for examples: every call returns
normally, `lastInsertRowid` reports 5. -/
def engineAllOk : EngineBehavior :=
  ⟨fun _ c => match c with
    | .lastInsertRowid => .okInt 5
    | _ => .ok,
   fun _ => []⟩

/-- A concrete engine behavior for examples: stepping always throws
with message boom; everything else returns normally. -/
def engineStepBoom : EngineBehavior :=
  ⟨fun _ c => match c with
    | .step => .err "boom"
    | _ => .ok,
   fun _ => []⟩

/-- A concrete engine behavior for examples: `prepare` always throws (a
compile error); everything else returns normally. -/
def enginePrepFail : EngineBehavior :=
  ⟨fun _ c => match c with
    | .prepare _ _ => .err "syntax error"
    | _ => .ok,
   fun _ => []⟩

/-- A concrete engine behavior for examples: `bind_text` always throws;
everything else returns normally. -/
def engineBindFail : EngineBehavior :=
  ⟨fun _ c => match c with
    | .bindText _ _ => .err "bind failed"
    | _ => .ok,
   fun _ => []⟩

/-- A concrete engine behavior for examples: the first `step` of a run
throws an `Error` whose message is the empty string, later steps return
normally; `lastInsertRowid` reports 7. -/
def engineFirstStepEmptyErr : EngineBehavior :=
  ⟨fun tr c => match c with
    | .step => if tr.contains ECall.step then .ok else .err ""
    | .lastInsertRowid => .okInt 7
    | _ => .ok,
   fun _ => []⟩

/-- A concrete engine behavior for examples: exec of the query q1
throws with message bad; everything else returns normally. -/
def engineExecFailQ1 : EngineBehavior :=
  ⟨fun _ c => match c with
    | .exec _ s => if s = "q1" then .err "bad" else .ok
    | _ => .ok,
   fun _ => []⟩

/-- A concrete engine behavior for examples: exec of BEGIN throws with
message misuse (as a null handle would); everything else returns
normally. -/
def engineBeginFail : EngineBehavior :=
  ⟨fun _ c => match c with
    | .exec _ s => if s = "BEGIN TRANSACTION;" then .err "misuse" else .ok
    | _ => .ok,
   fun _ => []⟩

end Worker

/-! ## Router lemmas -/

namespace Router

theorem mapGet_mapSet_self (m : List (String × Nat)) (k : String) (v : Nat) :
    mapGet (mapSet m k v) k = some v := by
  induction m with
  | nil => simp [mapSet, mapGet]
  | cons p rest ih =>
      obtain ⟨k', v'⟩ := p
      by_cases h : k' = k
      · simp [mapSet, h, mapGet]
      · simp [mapSet, h, mapGet, ih]

theorem mapSet_eq_append (m : List (String × Nat)) (k : String) (v : Nat)
    (h : mapHas m k = false) : mapSet m k v = m ++ [(k, v)] := by
  induction m with
  | nil => simp [mapSet]
  | cons p rest ih =>
      obtain ⟨k', v'⟩ := p
      simp only [mapHas, List.any_cons, Bool.or_eq_false_iff,
        beq_eq_false_iff_ne] at h
      simp [mapSet, h.1, ih h.2]

theorem postMany_eq (R : Nat → String) (ws : List Nat)
    (p : List (String × Nat)) (n : Nat)
    (hFresh : ∀ i, i < ws.length → mapHas p (R (n + i)) = false)
    (hDist : ∀ i j, i < ws.length → j < ws.length →
      R (n + i) = R (n + j) → i = j) :
    postMany R ⟨p, n⟩ ws = ⟨p ++ expectedPending R n ws, n + ws.length⟩ := by
  induction ws generalizing p n with
  | nil => simp [postMany, expectedPending]
  | cons w ws ih =>
      have h0 : mapHas p (R n) = false := by
        have := hFresh 0 (by simp)
        simpa using this
      have hset : mapSet p (R n) w = p ++ [(R n, w)] :=
        mapSet_eq_append _ _ _ h0
      have hFresh' : ∀ i, i < ws.length →
          mapHas (p ++ [(R n, w)]) (R (n + 1 + i)) = false := by
        intro i hi
        have hp : mapHas p (R (n + 1 + i)) = false := by
          have := hFresh (i + 1) (by simp; omega)
          have e : n + (i + 1) = n + 1 + i := by omega
          rwa [e] at this
        have hne : (R n == R (n + 1 + i)) = false := by
          rw [beq_eq_false_iff_ne]
          intro hcontra
          have e : n + 1 + i = n + (i + 1) := by omega
          rw [e] at hcontra
          have h00 : R (n + 0) = R (n + (i + 1)) := by
            simpa using hcontra
          have := hDist 0 (i + 1) (by simp) (by simp; omega) h00
          omega
        have hsplit : mapHas (p ++ [(R n, w)]) (R (n + 1 + i))
            = (mapHas p (R (n + 1 + i)) || mapHas [(R n, w)] (R (n + 1 + i))) := by
          simp [mapHas, List.any_append]
        rw [hsplit, hp]
        simp [mapHas, hne]
      have hDist' : ∀ i j, i < ws.length → j < ws.length →
          R (n + 1 + i) = R (n + 1 + j) → i = j := by
        intro i j hi hj hR
        have ei : n + 1 + i = n + (i + 1) := by omega
        have ej : n + 1 + j = n + (j + 1) := by omega
        rw [ei, ej] at hR
        have := hDist (i + 1) (j + 1) (by simp; omega) (by simp; omega) hR
        omega
      have step : postMany R ⟨p, n⟩ (w :: ws)
          = postMany R ⟨mapSet p (R n) w, n + 1⟩ ws := rfl
      rw [step, hset, ih (p ++ [(R n, w)]) (n + 1) hFresh' hDist']
      simp [expectedPending, List.append_assoc]
      omega

theorem mem_keys_expectedPending (R : Nat → String) (n : Nat) (ws : List Nat)
    (X : String) :
    X ∈ (expectedPending R n ws).map Prod.fst
      ↔ ∃ i, i < ws.length ∧ X = R (n + i) := by
  induction ws generalizing n with
  | nil => simp [expectedPending]
  | cons w ws ih =>
      simp only [expectedPending, List.map_cons, List.mem_cons, ih]
      constructor
      · rintro (h | ⟨i, hi, h⟩)
        · exact ⟨0, by simp, by simpa using h⟩
        · refine ⟨i + 1, by simp; omega, ?_⟩
          rw [h]
          congr 1
          omega
      · rintro ⟨i, hi, h⟩
        cases i with
        | zero => left; simpa using h
        | succ i =>
            right
            refine ⟨i, by simp at hi; omega, ?_⟩
            rw [h]
            congr 1
            omega

theorem keys_expectedPending_nodup (R : Nat → String) (n : Nat) (ws : List Nat)
    (hDist : ∀ i j, i < ws.length → j < ws.length →
      R (n + i) = R (n + j) → i = j) :
    ((expectedPending R n ws).map Prod.fst).Nodup := by
  induction ws generalizing n with
  | nil => simp [expectedPending]
  | cons w ws ih =>
      simp only [expectedPending, List.map_cons, List.nodup_cons]
      constructor
      · intro hmem
        rw [mem_keys_expectedPending] at hmem
        obtain ⟨i, hi, h⟩ := hmem
        have e : n + 1 + i = n + (i + 1) := by omega
        rw [e] at h
        have h0 : R (n + 0) = R (n + (i + 1)) := by simpa using h
        have := hDist 0 (i + 1) (by simp) (by simp; omega) h0
        omega
      · refine ih (n + 1) ?_
        intro i j hi hj hR
        have ei : n + 1 + i = n + (i + 1) := by omega
        have ej : n + 1 + j = n + (j + 1) := by omega
        rw [ei, ej] at hR
        have := hDist (i + 1) (j + 1) (by simp; omega) (by simp; omega) hR
        omega

theorem mapGet_expectedPending (R : Nat → String) (n : Nat) (ws : List Nat)
    (hDist : ∀ i j, i < ws.length → j < ws.length →
      R (n + i) = R (n + j) → i = j)
    (i : Nat) (hi : i < ws.length) :
    mapGet (expectedPending R n ws) (R (n + i)) = some (ws.get ⟨i, hi⟩) := by
  induction ws generalizing n i with
  | nil => simp at hi
  | cons w ws ih =>
      cases i with
      | zero => simp [expectedPending, mapGet]
      | succ i =>
          have hne : ¬ R n = R (n + (i + 1)) := by
            intro h
            have h0 : R (n + 0) = R (n + (i + 1)) := by simpa using h
            have := hDist 0 (i + 1) (by simp) hi h0
            omega
          have e : n + (i + 1) = n + 1 + i := by omega
          simp only [expectedPending, mapGet, if_neg hne]
          rw [e]
          have hDist' : ∀ i' j', i' < ws.length → j' < ws.length →
              R (n + 1 + i') = R (n + 1 + j') → i' = j' := by
            intro i' j' hi' hj' hR
            have ei : n + 1 + i' = n + (i' + 1) := by omega
            have ej : n + 1 + j' = n + (j' + 1) := by omega
            rw [ei, ej] at hR
            have := hDist (i' + 1) (j' + 1) (by simp; omega)
              (by simp; omega) hR
            omega
          exact ih (n + 1) hDist' i (by simp at hi; omega)

theorem onWorkerMessage_found (st : RState) (X : String) (b : Bool) (w : Nat)
    (h : mapGet st.pending X = some w) :
    onWorkerMessage st ⟨X, b⟩
      = (⟨mapDelete st.pending X, st.nextRand⟩,
         [if b then REvent.rejected w else REvent.resolved w]) := by
  simp only [onWorkerMessage]
  rw [h]

end Router

/-! ## Claims C1 and C7 (Router) -/

/-- C1 counterexample: `generateOperationId` is `Math.random()`-based and
nothing checks for collisions.  With a random stream that draws the same
token twice, two concurrently pending operations receive the same
operation id — the ids are not pairwise distinct — the second
`Map.set` silently overwrites the first waiter, and a reply carrying
that id settles only the second waiter while the first (registered
under the same id) is never settled. -/
theorem routerId_collision_cex :
    (Router.postToWorker (fun _ => "aaa") ⟨[], 0⟩ 0).2
        = [Router.REvent.registered "aaa" 0, Router.REvent.posted "aaa"]
    ∧ (Router.postToWorker (fun _ => "aaa")
          (Router.postToWorker (fun _ => "aaa") ⟨[], 0⟩ 0).1 1).2
        = [Router.REvent.registered "aaa" 1, Router.REvent.posted "aaa"]
    ∧ (Router.postToWorker (fun _ => "aaa")
          (Router.postToWorker (fun _ => "aaa") ⟨[], 0⟩ 0).1 1).1.pending
        = [("aaa", 1)]
    ∧ (Router.onWorkerMessage
          (Router.postToWorker (fun _ => "aaa")
            (Router.postToWorker (fun _ => "aaa") ⟨[], 0⟩ 0).1 1).1
          ⟨"aaa", false⟩).2 = [Router.REvent.resolved 1] := by
  refine ⟨by decide, by decide, by decide, by decide⟩

/-- C1 (amended): provided the random tokens drawn for the concurrently
pending operations are pairwise distinct, the ids stored in
`pendingOperations` are pairwise distinct and a reply carrying
operation id X settles (resolves or rejects) exactly the waiter
registered under X and no other. -/
theorem routerIds_distinct_of_distinct_draws (R : Nat → String)
    (ws : List Nat)
    (hDist : ∀ i j, i < ws.length → j < ws.length → R i = R j → i = j) :
    (Router.postMany R ⟨[], 0⟩ ws).pending = Router.expectedPending R 0 ws
    ∧ ((Router.postMany R ⟨[], 0⟩ ws).pending.map Prod.fst).Nodup
    ∧ ∀ i (hi : i < ws.length) (b : Bool),
        Router.onWorkerMessage (Router.postMany R ⟨[], 0⟩ ws) ⟨R i, b⟩
          = (⟨Router.mapDelete (Router.expectedPending R 0 ws) (R i),
              ws.length⟩,
             [if b then Router.REvent.rejected (ws.get ⟨i, hi⟩)
              else Router.REvent.resolved (ws.get ⟨i, hi⟩)]) := by
  have hDist0 : ∀ i j, i < ws.length → j < ws.length →
      R (0 + i) = R (0 + j) → i = j := by
    intro i j hi hj h
    exact hDist i j hi hj (by rwa [Nat.zero_add, Nat.zero_add] at h)
  have hFresh0 : ∀ i, i < ws.length →
      Router.mapHas [] (R (0 + i)) = false := by
    intro i _
    rfl
  have hPM := Router.postMany_eq R ws [] 0 hFresh0 hDist0
  have hpend : (Router.postMany R ⟨[], 0⟩ ws).pending
      = Router.expectedPending R 0 ws := by
    rw [hPM]
    simp
  refine ⟨hpend, ?_, ?_⟩
  · rw [hpend]
    exact Router.keys_expectedPending_nodup R 0 ws hDist0
  · intro i hi b
    have hget : Router.mapGet (Router.expectedPending R 0 ws) (R i)
        = some (ws.get ⟨i, hi⟩) := by
      have := Router.mapGet_expectedPending R 0 ws hDist0 i hi
      rwa [Nat.zero_add] at this
    have hnr : (Router.postMany R ⟨[], 0⟩ ws).nextRand = ws.length := by
      rw [hPM]
      simp
    rw [Router.onWorkerMessage_found _ _ b (ws.get ⟨i, hi⟩)
      (by rw [hpend]; exact hget)]
    rw [hpend, hnr]

/-- C1 witness: a stream drawing two distinct tokens yields a pending
table with pairwise-distinct operation ids. -/
theorem routerIds_distinct_witness :
    ((Router.postMany (fun k => if k = 0 then "a" else "b")
        ⟨[], 0⟩ [10, 20]).pending.map Prod.fst).Nodup := by
  have hd : ∀ i j, i < ([10, 20] : List Nat).length →
      j < ([10, 20] : List Nat).length →
      (fun k => if k = 0 then "a" else "b") i
        = (fun k => if k = 0 then "a" else "b") j → i = j := by
    intro i j hi hj hR
    simp at hi hj
    interval_cases i <;> interval_cases j <;> simp_all
  exact (routerIds_distinct_of_distinct_draws
    (fun k => if k = 0 then "a" else "b") [10, 20] hd).2.1

/-- C7: `postToWorker` registers the waiter in `pendingOperations`
before posting the request message to the worker — the event list is
register-then-send, and at the moment of the send the waiter is
retrievable under the generated id. -/
theorem postToWorker_registers_before_send (R : Nat → String)
    (st : Router.RState) (w : Nat) :
    (Router.postToWorker R st w).2
      = [Router.REvent.registered (R st.nextRand) w,
         Router.REvent.posted (R st.nextRand)]
    ∧ Router.mapGet (Router.postToWorker R st w).1.pending (R st.nextRand)
        = some w := by
  refine ⟨rfl, ?_⟩
  exact Router.mapGet_mapSet_self _ _ _

/-! ## Worker lemmas -/

namespace Worker

theorem countP_zero_of_pipe (ext : List ECall) (p : ECall → Bool)
    (hall : ∀ c ∈ ext, isPipeCall c = true)
    (hp : ∀ c, isPipeCall c = true → p c = false) :
    ext.countP p = 0 := by
  rw [List.countP_eq_zero]
  intro c hc
  simp [hp c (hall c hc)]

theorem bindLoop_ext (B : EngineBehavior) (vs : List String) :
    ∀ (tr : List ECall) (i : Nat), ∃ ext,
      (bindLoop B tr i vs).2 = tr ++ ext
      ∧ (∀ c ∈ ext, isPipeCall c = true)
      ∧ ext.countP isPrepareCall = 0
      ∧ ext.countP isFinalizeCall = 0 := by
  induction vs with
  | nil =>
      intro tr i
      exact ⟨[], by simp [bindLoop], by simp, by simp, by simp⟩
  | cons v rest ih =>
      intro tr i
      cases h : asErr (B.reply tr (.bindText i v)) with
      | some m =>
          refine ⟨[.bindText i v], ?_, ?_, ?_, ?_⟩
          · simp only [bindLoop, callE]
            rw [h]
          · intro c hc
            simp at hc
            subst hc
            rfl
          · simp [List.countP_cons, isPrepareCall]
          · simp [List.countP_cons, isFinalizeCall]
      | none =>
          obtain ⟨ext, he, hall, hp, hf⟩ := ih (tr ++ [.bindText i v]) (i + 1)
          refine ⟨.bindText i v :: ext, ?_, ?_, ?_, ?_⟩
          · simp only [bindLoop, callE]
            rw [h, he]
            simp
          · intro c hc
            rcases List.mem_cons.mp hc with h1 | h2
            · subst h1; rfl
            · exact hall c h2
          · simp [List.countP_cons, isPrepareCall, hp]
          · simp [List.countP_cons, isFinalizeCall, hf]

theorem cab_ext (B : EngineBehavior) (st : Helper) (tr : List ECall)
    (q : String) (vs : List String) : ∃ ext,
      (compileAndBindSQLiteStatement B st tr q vs).2 = tr ++ ext
      ∧ (∀ c ∈ ext, isPipeCall c = true)
      ∧ ext.countP isPrepareCall = 1
      ∧ ext.countP isFinalizeCall = 0 := by
  cases h : asErr (B.reply tr (.prepare st.db q)) with
  | some m =>
      refine ⟨[.prepare st.db q], ?_, ?_, ?_, ?_⟩
      · simp only [compileAndBindSQLiteStatement, callE]
        rw [h]
      · intro c hc
        simp at hc
        subst hc
        rfl
      · simp [List.countP_cons, isPrepareCall]
      · simp [List.countP_cons, isFinalizeCall]
  | none =>
      obtain ⟨ext, he, hall, hp, hf⟩ :=
        bindLoop_ext B vs (tr ++ [.prepare st.db q]) 1
      refine ⟨.prepare st.db q :: ext, ?_, ?_, ?_, ?_⟩
      · simp only [compileAndBindSQLiteStatement, callE]
        rw [h, he]
        simp
      · intro c hc
        rcases List.mem_cons.mp hc with h1 | h2
        · subst h1; rfl
        · exact hall c h2
      · simp [List.countP_cons, isPrepareCall, hp]
      · simp [List.countP_cons, isFinalizeCall, hf]

theorem epc_ext (B : EngineBehavior) (st : Helper) (tr : List ECall)
    (q : String) (vs : List String) : ∃ ext,
      (executePreparedStatement B st tr q vs).2 = tr ++ ext
      ∧ (∀ c ∈ ext, isPipeCall c = true)
      ∧ ext.countP isPrepareCall = 1
      ∧ (∀ p, (executePreparedStatement B st tr q vs).1 = .ok p →
          ext.countP isFinalizeCall = 1) := by
  obtain ⟨ext0, he0, hall0, hp0, hf0⟩ := cab_ext B st tr q vs
  rcases hcb : compileAndBindSQLiteStatement B st tr q vs with ⟨o, tr1⟩
  have htr1 : tr1 = tr ++ ext0 := by rw [hcb] at he0; exact he0
  cases o with
  | exn m =>
      refine ⟨ext0, ?_, hall0, hp0, ?_⟩
      · simp only [executePreparedStatement, hcb]
        exact htr1
      · intro p hcontra
        simp only [executePreparedStatement, hcb] at hcontra
        exact JsOut.noConfusion hcontra
  | hang =>
      refine ⟨ext0, ?_, hall0, hp0, ?_⟩
      · simp only [executePreparedStatement, hcb]
        exact htr1
      · intro p hcontra
        simp only [executePreparedStatement, hcb] at hcontra
        exact JsOut.noConfusion hcontra
  | ok u =>
      have hmem : ∀ (extra : List ECall),
          (∀ c ∈ extra, isPipeCall c = true) →
          ∀ c ∈ ext0 ++ extra, isPipeCall c = true := by
        intro extra hextra c hc
        rcases List.mem_append.mp hc with h1 | h2
        · exact hall0 c h1
        · exact hextra c h2
      cases hs : asErr (B.reply tr1 .step) with
      | some m =>
          cases hfr : asErr (B.reply (tr1 ++ [ECall.step]) .finalize) with
          | some m2 =>
              refine ⟨ext0 ++ [.step, .finalize], ?_, ?_, ?_, ?_⟩
              · simp only [executePreparedStatement, hcb, callE,
                  finalizeAndResolve]
                rw [hs, hfr, htr1]
                simp
              · refine hmem _ ?_
                intro c hc
                simp at hc
                rcases hc with h1 | h1 <;> (subst h1; rfl)
              · simp [List.countP_append, List.countP_cons, isPrepareCall, hp0]
              · intro p hcontra
                simp only [executePreparedStatement, hcb, callE,
                  finalizeAndResolve] at hcontra
                rw [hs, hfr] at hcontra
                simp at hcontra
          | none =>
              refine ⟨ext0 ++ [.step, .finalize], ?_, ?_, ?_, ?_⟩
              · simp only [executePreparedStatement, hcb, callE,
                  finalizeAndResolve]
                rw [hs, hfr, htr1]
                simp
              · refine hmem _ ?_
                intro c hc
                simp at hc
                rcases hc with h1 | h1 <;> (subst h1; rfl)
              · simp [List.countP_append, List.countP_cons, isPrepareCall, hp0]
              · intro p _
                simp [List.countP_append, List.countP_cons, isFinalizeCall, hf0]
      | none =>
          cases hfr : asErr (B.reply (tr1 ++ [ECall.step, ECall.lastInsertRowid])
              .finalize) with
          | some m2 =>
              refine ⟨ext0 ++ [.step, .lastInsertRowid, .finalize], ?_, ?_, ?_, ?_⟩
              · simp only [executePreparedStatement, hcb, callE,
                  finalizeAndResolve]
                rw [hs]
                cases hl : asErr (B.reply (tr1 ++ [ECall.step]) .lastInsertRowid) <;>
                  simp only [] <;>
                  (rw [show tr1 ++ [ECall.step] ++ [ECall.lastInsertRowid]
                        = tr1 ++ [ECall.step, ECall.lastInsertRowid] from by simp,
                     hfr, htr1]
                   simp)
              · refine hmem _ ?_
                intro c hc
                simp at hc
                rcases hc with h1 | h1 | h1 <;> (subst h1; rfl)
              · simp [List.countP_append, List.countP_cons, isPrepareCall, hp0]
              · intro p hcontra
                simp only [executePreparedStatement, hcb, callE,
                  finalizeAndResolve] at hcontra
                rw [hs] at hcontra
                cases hl : asErr (B.reply (tr1 ++ [ECall.step]) .lastInsertRowid) <;>
                  rw [hl] at hcontra <;>
                  (rw [show tr1 ++ [ECall.step] ++ [ECall.lastInsertRowid]
                        = tr1 ++ [ECall.step, ECall.lastInsertRowid] from by simp,
                     hfr] at hcontra
                   simp at hcontra)
          | none =>
              refine ⟨ext0 ++ [.step, .lastInsertRowid, .finalize], ?_, ?_, ?_, ?_⟩
              · simp only [executePreparedStatement, hcb, callE,
                  finalizeAndResolve]
                rw [hs]
                cases hl : asErr (B.reply (tr1 ++ [ECall.step]) .lastInsertRowid) <;>
                  simp only [] <;>
                  (rw [show tr1 ++ [ECall.step] ++ [ECall.lastInsertRowid]
                        = tr1 ++ [ECall.step, ECall.lastInsertRowid] from by simp,
                     hfr, htr1]
                   simp)
              · refine hmem _ ?_
                intro c hc
                simp at hc
                rcases hc with h1 | h1 | h1 <;> (subst h1; rfl)
              · simp [List.countP_append, List.countP_cons, isPrepareCall, hp0]
              · intro p _
                simp [List.countP_append, List.countP_cons, isFinalizeCall, hf0]

theorem batchOk_length {B : EngineBehavior} {st : Helper} {tr : List ECall}
    {stmts : List Stmt} {ids : List (Option Int)} {tr'' : List ECall}
    (h : BatchOk B st tr stmts ids tr'') : ids.length = stmts.length := by
  induction h with
  | nil tr => rfl
  | cons _ _ ih => simp [ih]

theorem stmtLoop_of_batchOk {B : EngineBehavior} {st : Helper}
    {tr : List ECall} {stmts : List Stmt} {ids : List (Option Int)}
    {tr'' : List ECall} (h : BatchOk B st tr stmts ids tr'') :
    ∀ acc, stmtLoop B st tr stmts acc = (.ok (acc ++ ids), tr'') := by
  induction h with
  | nil tr => intro acc; simp [stmtLoop]
  | @cons tr s rest lid ids tr' tr'' hepc _ ih =>
      intro acc
      simp only [stmtLoop, hepc]
      simpa using ih (acc ++ [lid])

theorem stmtLoop_of_batchFail {B : EngineBehavior} {st : Helper}
    {tr : List ECall} {stmts : List Stmt} {k : Nat} {e : String}
    {trF : List ECall} (h : BatchFail B st tr stmts k e trF) :
    ∀ acc, stmtLoop B st tr stmts acc = (.exn e, trF) := by
  induction h with
  | hd hepc hne =>
      intro acc
      simp only [stmtLoop, hepc]
      simp [hne]
  | tl hepc hslot _ ih =>
      intro acc
      simp only [stmtLoop, hepc]
      rcases hslot with h1 | h1 <;> subst h1 <;> simpa using ih _

theorem batchOk_facts {B : EngineBehavior} {st : Helper} {tr : List ECall}
    {stmts : List Stmt} {ids : List (Option Int)} {tr'' : List ECall}
    (h : BatchOk B st tr stmts ids tr'') :
    ∃ ext, tr'' = tr ++ ext ∧ (∀ c ∈ ext, isPipeCall c = true) := by
  induction h with
  | nil tr => exact ⟨[], by simp, by simp⟩
  | @cons tr s rest lid ids tr' tr'' hepc _ ih =>
      obtain ⟨ext0, he0, hall0, _, _⟩ := epc_ext B st tr s.query s.values
      rw [hepc] at he0
      simp at he0
      obtain ⟨ext1, he1, hall1⟩ := ih
      refine ⟨ext0 ++ ext1, ?_, ?_⟩
      · rw [he1, he0]
        simp
      · intro c hc
        rcases List.mem_append.mp hc with h1 | h1
        · exact hall0 c h1
        · exact hall1 c h1

theorem batchFail_facts {B : EngineBehavior} {st : Helper} {tr : List ECall}
    {stmts : List Stmt} {k : Nat} {e : String} {trF : List ECall}
    (h : BatchFail B st tr stmts k e trF) :
    ∃ ext, trF = tr ++ ext ∧ (∀ c ∈ ext, isPipeCall c = true)
      ∧ ext.countP isPrepareCall = k + 1 := by
  induction h with
  | @hd tr s rest e lid tr' hepc hne =>
      obtain ⟨ext0, he0, hall0, hp0, _⟩ := epc_ext B st tr s.query s.values
      rw [hepc] at he0
      simp at he0
      exact ⟨ext0, he0, hall0, hp0⟩
  | @tl tr s rest k e lid slot tr' tr'' hepc hslot _ ih =>
      obtain ⟨ext0, he0, hall0, hp0, _⟩ := epc_ext B st tr s.query s.values
      rw [hepc] at he0
      simp at he0
      obtain ⟨ext1, he1, hall1, hp1⟩ := ih
      refine ⟨ext0 ++ ext1, ?_, ?_, ?_⟩
      · rw [he1, he0]
        simp
      · intro c hc
        rcases List.mem_append.mp hc with h1 | h1
        · exact hall0 c h1
        · exact hall1 c h1
      · rw [List.countP_append, hp0, hp1]
        omega

theorem execAllOk_trace {B : EngineBehavior} {st : Helper} {tr : List ECall}
    {qs : List String} {trM : List ECall} (h : ExecAllOk B st tr qs trM) :
    trM = tr ++ qs.map (fun q => ECall.exec st.db q) := by
  induction h with
  | nil tr => simp
  | @cons tr q rest tr'' _ _ ih => simp [ih]

theorem qLoop_skip {B : EngineBehavior} {st : Helper} {tr : List ECall}
    {qs : List String} {trM : List ECall} (h : ExecAllOk B st tr qs trM) :
    ∀ rest, qLoop B st tr (qs ++ rest) = qLoop B st trM rest := by
  induction h with
  | nil tr => intro rest; rfl
  | @cons tr q rest' tr'' hq _ ih =>
      intro rest
      simp only [List.cons_append, qLoop, callE]
      rw [hq]
      exact ih rest

theorem catchBlock_mono (B : EngineBehavior) (st : Helper) (tr : List ECall)
    (rbFlag : Bool) (e : String) :
    ∃ ext, (catchBlock B st tr rbFlag e).2 = tr ++ ext := by
  cases rbFlag with
  | false => exact ⟨[], by simp [catchBlock]⟩
  | true =>
      cases h : asErr (B.reply tr (.exec st.db "ROLLBACK;")) with
      | some m =>
          refine ⟨[.exec st.db "ROLLBACK;"], ?_⟩
          simp only [catchBlock, callE, if_true]
          rw [h]
      | none =>
          refine ⟨[.exec st.db "ROLLBACK;"], ?_⟩
          simp only [catchBlock, callE, if_true]
          rw [h]

theorem stmtLoop_mono (B : EngineBehavior) (st : Helper) (stmts : List Stmt) :
    ∀ (tr : List ECall) (acc : List (Option Int)),
      ∃ ext, (stmtLoop B st tr stmts acc).2 = tr ++ ext := by
  induction stmts with
  | nil => intro tr acc; exact ⟨[], by simp [stmtLoop]⟩
  | cons s rest ih =>
      intro tr acc
      obtain ⟨ext0, he0, _, _, _⟩ := epc_ext B st tr s.query s.values
      rcases hepc : executePreparedStatement B st tr s.query s.values with ⟨o, tr'⟩
      rw [hepc] at he0
      simp at he0
      cases o with
      | hang => exact ⟨ext0, by simp only [stmtLoop, hepc]; exact he0⟩
      | exn m => exact ⟨ext0, by simp only [stmtLoop, hepc]; exact he0⟩
      | ok p =>
          obtain ⟨slot, lid⟩ := p
          cases slot with
          | none =>
              obtain ⟨ext1, he1⟩ := ih tr' (acc ++ [lid])
              refine ⟨ext0 ++ ext1, ?_⟩
              simp only [stmtLoop, hepc]
              rw [he1, he0]
              simp
          | some msg =>
              by_cases hm : msg = ""
              · subst hm
                obtain ⟨ext1, he1⟩ := ih tr' (acc ++ [lid])
                refine ⟨ext0 ++ ext1, ?_⟩
                simp only [stmtLoop, hepc]
                simp only [if_true]
                rw [he1, he0]
                simp
              · refine ⟨ext0, ?_⟩
                simp only [stmtLoop, hepc]
                rw [if_neg hm]
                exact he0

end Worker

/-! ## Claims C2, C3, C4 (prepared-statement pipeline and batch) -/

namespace Worker

/-- C2 counterexample: the batch executor tests the pipeline's error
slot with JS truthiness (`if (error) throw error`).  When the first
statement's step throws an `Error` whose message is the empty string,
the pipeline reports the error (`some ""` in the slot), yet the batch
does not abort: the second statement still executes, no `ROLLBACK` is
issued although `rollbackOnError = true`, `COMMIT` is issued, and the
call returns `(null, [null, 7])` instead of `(error, null)`. -/
theorem executePreparedStatements_empty_error_cex :
    executePreparedStatement engineFirstStepEmptyErr ⟨"db", some 0⟩
        [ECall.exec (some 0) "BEGIN TRANSACTION;"] "s1" []
      = (.ok (some "", none),
         [.exec (some 0) "BEGIN TRANSACTION;", .prepare (some 0) "s1",
          .step, .finalize])
    ∧ executePreparedStatements engineFirstStepEmptyErr ⟨"db", some 0⟩ []
        [⟨"s1", []⟩, ⟨"s2", []⟩] true
      = (.ok (none, some [none, some 7]),
         [.exec (some 0) "BEGIN TRANSACTION;", .prepare (some 0) "s1",
          .step, .finalize, .prepare (some 0) "s2", .step,
          .lastInsertRowid, .finalize, .exec (some 0) "COMMIT;"]) := by
  exact ⟨by decide, by decide⟩

/-- C2 (amended): if the pipeline reports an error with a non-empty
message for statement k (statements whose slot is null or the empty
string are treated as successes by the JS truthiness test), then no
statement after k is executed (exactly k+1 statements are compiled),
ROLLBACK is issued iff `rollbackOnError` is true (provided that exec
returns normally), and the call returns the pair `(error, null)` with
a non-null first element. -/
theorem executePreparedStatements_fail_fast (B : EngineBehavior)
    (st : Helper) (tr : List ECall) (stmts : List Stmt) (k : Nat)
    (e : String) (trF : List ECall) (rbFlag : Bool)
    (hBegin : asErr (B.reply tr (.exec st.db "BEGIN TRANSACTION;")) = none)
    (hFail : BatchFail B st (tr ++ [.exec st.db "BEGIN TRANSACTION;"])
      stmts k e trF)
    (hRb : rbFlag = true →
      asErr (B.reply trF (.exec st.db "ROLLBACK;")) = none) :
    executePreparedStatements B st tr stmts rbFlag
      = (.ok (some e, none),
         trF ++ if rbFlag then [.exec st.db "ROLLBACK;"] else [])
    ∧ trF.countP isPrepareCall = tr.countP isPrepareCall + (k + 1)
    ∧ (trF ++ if rbFlag then [ECall.exec st.db "ROLLBACK;"] else []).countP
          isRollbackCall
        = tr.countP isRollbackCall + (if rbFlag then 1 else 0) := by
  have hsl := stmtLoop_of_batchFail hFail []
  obtain ⟨ext, hext, hall, hp⟩ := batchFail_facts hFail
  have hRollZero : ext.countP isRollbackCall = 0 := by
    refine countP_zero_of_pipe ext isRollbackCall hall ?_
    intro c hc
    cases c <;> simp_all [isPipeCall, isRollbackCall]
  refine ⟨?_, ?_, ?_⟩
  · simp only [executePreparedStatements, callE, hBegin, hsl]
    cases rbFlag with
    | true =>
        simp only [catchBlock, callE, if_true]
        rw [hRb rfl]
    | false =>
        simp [catchBlock]
  · rw [hext]
    simp [List.countP_append, List.countP_cons, isPrepareCall, hp]
  · rw [hext]
    cases rbFlag <;>
      simp [List.countP_append, List.countP_cons, isRollbackCall, hRollZero]

/-- C2 witness: a statement whose step throws with message boom aborts
the batch with rollback and the `(error, null)` result. -/
theorem executePreparedStatements_fail_fast_witness :
    executePreparedStatements engineStepBoom ⟨"db", some 0⟩ []
        [⟨"q1", []⟩] true
      = (.ok (some "boom", none),
         [.exec (some 0) "BEGIN TRANSACTION;", .prepare (some 0) "q1",
          .step, .finalize] ++ [.exec (some 0) "ROLLBACK;"])
    ∧ ([ECall.exec (some 0) "BEGIN TRANSACTION;", .prepare (some 0) "q1",
        ECall.step, ECall.finalize] : List ECall).countP isPrepareCall
        = ([] : List ECall).countP isPrepareCall + (0 + 1)
    ∧ (([ECall.exec (some 0) "BEGIN TRANSACTION;", .prepare (some 0) "q1",
        ECall.step, ECall.finalize] : List ECall)
          ++ if true then [ECall.exec (some 0) "ROLLBACK;"] else []).countP
          isRollbackCall
        = ([] : List ECall).countP isRollbackCall + (if true then 1 else 0) := by
  have h1 : executePreparedStatement engineStepBoom ⟨"db", some 0⟩
      [ECall.exec (some 0) "BEGIN TRANSACTION;"] "q1" []
      = (.ok (some "boom", none),
         [.exec (some 0) "BEGIN TRANSACTION;", .prepare (some 0) "q1",
          .step, .finalize]) := by decide
  have h := executePreparedStatements_fail_fast engineStepBoom ⟨"db", some 0⟩
    [] [⟨"q1", []⟩] 0 "boom"
    [.exec (some 0) "BEGIN TRANSACTION;", .prepare (some 0) "q1",
     .step, .finalize] true (by decide)
    (BatchFail.hd h1 (by decide)) (fun _ => by decide)
  exact h

/-- C3: for every batch where BEGIN succeeds, every statement settles
through the pipeline with a null error slot reporting its lastID, and
COMMIT succeeds, COMMIT is issued exactly once and the call returns
`(null, idList)` with `idList` of the batch's length holding each
statement's reported identifier in input order. -/
theorem executePreparedStatements_all_ok (B : EngineBehavior) (st : Helper)
    (tr : List ECall) (stmts : List Stmt) (ids : List (Option Int))
    (tr'' : List ECall) (rbFlag : Bool)
    (hBegin : asErr (B.reply tr (.exec st.db "BEGIN TRANSACTION;")) = none)
    (hOk : BatchOk B st (tr ++ [.exec st.db "BEGIN TRANSACTION;"]) stmts ids tr'')
    (hCommit : asErr (B.reply tr'' (.exec st.db "COMMIT;")) = none) :
    executePreparedStatements B st tr stmts rbFlag
      = (.ok (none, some ids), tr'' ++ [.exec st.db "COMMIT;"])
    ∧ ids.length = stmts.length
    ∧ (tr'' ++ [ECall.exec st.db "COMMIT;"]).countP isCommitCall
        = tr.countP isCommitCall + 1 := by
  have hstmt := stmtLoop_of_batchOk hOk []
  obtain ⟨ext, hext, hall⟩ := batchOk_facts hOk
  have hz : ext.countP isCommitCall = 0 := by
    refine countP_zero_of_pipe ext isCommitCall hall ?_
    intro c hc
    cases c <;> simp_all [isPipeCall, isCommitCall]
  refine ⟨?_, batchOk_length hOk, ?_⟩
  · simp only [executePreparedStatements, callE, hBegin, hstmt,
      List.nil_append, hCommit]
  · rw [hext]
    simp [List.countP_append, List.countP_cons, isCommitCall, hz]

/-- C3 witness: two inserts both succeed; COMMIT is issued once, the id
list has both reported row ids in input order. -/
theorem executePreparedStatements_all_ok_witness :
    executePreparedStatements engineAllOk ⟨"db", some 0⟩ []
        [⟨"ins1", ["x"]⟩, ⟨"ins2", []⟩] true
      = (.ok (none, some [some 5, some 5]),
         [.exec (some 0) "BEGIN TRANSACTION;", .prepare (some 0) "ins1",
          .bindText 1 "x", .step, .lastInsertRowid, .finalize,
          .prepare (some 0) "ins2", .step, .lastInsertRowid, .finalize]
           ++ [.exec (some 0) "COMMIT;"])
    ∧ ([some 5, some 5] : List (Option Int)).length
        = ([⟨"ins1", ["x"]⟩, ⟨"ins2", []⟩] : List Stmt).length
    ∧ (([ECall.exec (some 0) "BEGIN TRANSACTION;", .prepare (some 0) "ins1",
        .bindText 1 "x", ECall.step, ECall.lastInsertRowid, ECall.finalize,
        .prepare (some 0) "ins2", ECall.step, ECall.lastInsertRowid,
        ECall.finalize] : List ECall) ++ [ECall.exec (some 0) "COMMIT;"]).countP
          isCommitCall
        = ([] : List ECall).countP isCommitCall + 1 := by
  have h1 : executePreparedStatement engineAllOk ⟨"db", some 0⟩
      [ECall.exec (some 0) "BEGIN TRANSACTION;"] "ins1" ["x"]
      = (.ok (none, some 5),
         [.exec (some 0) "BEGIN TRANSACTION;", .prepare (some 0) "ins1",
          .bindText 1 "x", .step, .lastInsertRowid, .finalize]) := by decide
  have h2 : executePreparedStatement engineAllOk ⟨"db", some 0⟩
      [ECall.exec (some 0) "BEGIN TRANSACTION;", .prepare (some 0) "ins1",
       .bindText 1 "x", .step, .lastInsertRowid, .finalize] "ins2" []
      = (.ok (none, some 5),
         [.exec (some 0) "BEGIN TRANSACTION;", .prepare (some 0) "ins1",
          .bindText 1 "x", .step, .lastInsertRowid, .finalize,
          .prepare (some 0) "ins2", .step, .lastInsertRowid, .finalize]) := by
    decide
  have h := executePreparedStatements_all_ok engineAllOk ⟨"db", some 0⟩ []
    [⟨"ins1", ["x"]⟩, ⟨"ins2", []⟩] [some 5, some 5]
    [.exec (some 0) "BEGIN TRANSACTION;", .prepare (some 0) "ins1",
     .bindText 1 "x", .step, .lastInsertRowid, .finalize,
     .prepare (some 0) "ins2", .step, .lastInsertRowid, .finalize] true
    (by decide)
    (BatchOk.cons h1 (BatchOk.cons h2 (BatchOk.nil _)))
    (by decide)
  exact h

/-- C4 counterexample: a bind failure occurs before the `try` of the
promise executor, so the exception escapes the executor: the promise
never settles (it neither resolves with an error-slot pair nor
rejects), and although the statement was compiled (`prepare` is in the
trace) it is never finalized. -/
theorem executePreparedStatement_bindfail_cex :
    executePreparedStatement engineBindFail ⟨"db", some 0⟩ [] "ins" ["x"]
      = (JsOut.hang, [ECall.prepare (some 0) "ins", ECall.bindText 1 "x"])
    ∧ (executePreparedStatement engineBindFail ⟨"db", some 0⟩ []
        "ins" ["x"]).2.countP isFinalizeCall = 0 := by
  exact ⟨by decide, by decide⟩

/-- C4 (amended): when compile-and-bind succeeds and the engine's
finalize returns normally, `executePreparedStatement` settles with an
`(error, lastId)` pair — a step failure is returned in the error slot,
never thrown — and the statement is finalized exactly once on every
such exit path.  (Compile and bind failures, by contrast, escape the
promise executor: the promise never settles and the handle is not
finalized.) -/
theorem executePreparedStatement_settles_of_compiled (B : EngineBehavior)
    (st : Helper) (tr : List ECall) (q : String) (vs : List String)
    (hCB : (compileAndBindSQLiteStatement B st tr q vs).1 = JsOut.ok ())
    (hFin : ∀ t, asErr (B.reply t .finalize) = none) :
    (∃ slot lid tr',
        executePreparedStatement B st tr q vs = (.ok (slot, lid), tr')
        ∧ tr'.countP isFinalizeCall = tr.countP isFinalizeCall + 1)
    ∧ (∀ m, asErr (B.reply (compileAndBindSQLiteStatement B st tr q vs).2
          .step) = some m →
        (executePreparedStatement B st tr q vs).1
          = JsOut.ok (some m, none)) := by
  obtain ⟨ext0, he0, _, _, hf0⟩ := cab_ext B st tr q vs
  rcases hcb : compileAndBindSQLiteStatement B st tr q vs with ⟨o, tcb⟩
  rw [hcb] at hCB he0
  simp at hCB he0
  subst hCB
  have hfz : tcb.countP isFinalizeCall = tr.countP isFinalizeCall := by
    rw [he0]
    simp [List.countP_append, hf0]
  constructor
  · cases hs : asErr (B.reply tcb .step) with
    | some m =>
        refine ⟨some m, none, tcb ++ [.step, .finalize], ?_, ?_⟩
        · simp only [executePreparedStatement, hcb, callE,
            finalizeAndResolve, hs, hFin]
          simp
        · simp [List.countP_append, List.countP_cons, isFinalizeCall, hfz]
    | none =>
        cases hl : asErr (B.reply (tcb ++ [ECall.step]) .lastInsertRowid) with
        | some m =>
            refine ⟨some m, none,
              tcb ++ [.step, .lastInsertRowid, .finalize], ?_, ?_⟩
            · simp only [executePreparedStatement, hcb, callE,
                finalizeAndResolve, hs, hl, hFin]
              simp
            · simp [List.countP_append, List.countP_cons, isFinalizeCall, hfz]
        | none =>
            refine ⟨none, asInt (B.reply (tcb ++ [ECall.step]) .lastInsertRowid),
              tcb ++ [.step, .lastInsertRowid, .finalize], ?_, ?_⟩
            · simp only [executePreparedStatement, hcb, callE,
                finalizeAndResolve, hs, hl, hFin]
              simp
            · simp [List.countP_append, List.countP_cons, isFinalizeCall, hfz]
  · intro m hm
    simp only [] at hm
    simp only [executePreparedStatement, hcb, callE, finalizeAndResolve,
      hm, hFin]

/-- C4 witness: with an engine that compiles, binds and finalizes
normally, the pipeline settles with a pair and finalizes once. -/
theorem executePreparedStatement_settles_witness :
    (∃ slot lid tr',
        executePreparedStatement engineAllOk ⟨"db", some 0⟩ [] "ins" ["x"]
          = (.ok (slot, lid), tr')
        ∧ tr'.countP isFinalizeCall
            = ([] : List ECall).countP isFinalizeCall + 1)
    ∧ (∀ m, asErr (engineAllOk.reply
          (compileAndBindSQLiteStatement engineAllOk ⟨"db", some 0⟩ []
            "ins" ["x"]).2 .step) = some m →
        (executePreparedStatement engineAllOk ⟨"db", some 0⟩ [] "ins" ["x"]).1
          = JsOut.ok (some m, none)) :=
  executePreparedStatement_settles_of_compiled engineAllOk ⟨"db", some 0⟩ []
    "ins" ["x"] (by decide) (fun _ => rfl)

end Worker

/-! ## Claim C5 (batch SQL executor failure policy) -/

namespace Worker

/-- C5: when query q of the batch fails after the prefix qs1 succeeded:
with `rollbackOnError` true the call issues ROLLBACK and rejects with a
message wrapping the underlying failure and naming the rollback; with
`rollbackOnError` false the call returns normally, the remaining
queries are never executed, and the executor appends neither a COMMIT
nor a ROLLBACK of its own (the final trace is exactly BEGIN, the
succeeded prefix and the failed query, leaving the transaction open). -/
theorem executeQueries_failure_policy (B : EngineBehavior) (name : String)
    (h : Int) (tr : List ECall) (qs1 : List String) (q : String)
    (qs2 : List String) (m : String) (trM : List ECall) (rbFlag : Bool)
    (hBegin : asErr (B.reply tr (.exec (some h) "BEGIN TRANSACTION;")) = none)
    (hPre : ExecAllOk B ⟨name, some h⟩
      (tr ++ [.exec (some h) "BEGIN TRANSACTION;"]) qs1 trM)
    (hq : asErr (B.reply trM (.exec (some h) q)) = some m)
    (hRb : rbFlag = true →
      asErr (B.reply (trM ++ [.exec (some h) q])
        (.exec (some h) "ROLLBACK;")) = none) :
    executeQueries B ⟨name, some h⟩ tr (qs1 ++ q :: qs2) rbFlag
      = (if rbFlag
          then (.exn ("Transaction failed, rolled back: " ++ m),
                trM ++ [.exec (some h) q, .exec (some h) "ROLLBACK;"])
          else (.ok (), trM ++ [.exec (some h) q]))
    ∧ trM = (tr ++ [.exec (some h) "BEGIN TRANSACTION;"])
        ++ qs1.map (fun qq => ECall.exec (some h) qq) := by
  have htrM := execAllOk_trace hPre
  have hskip := qLoop_skip hPre (q :: qs2)
  refine ⟨?_, by simpa using htrM⟩
  simp only [executeQueries, callE, hBegin]
  rw [hskip]
  simp only [qLoop, callE, hq]
  cases rbFlag with
  | true =>
      simp only [qCatch, callE, if_true]
      rw [hRb rfl]
      simp
  | false =>
      simp [qCatch]

/-- C5 witness: a two-query batch whose first query fails with
`rollbackOnError = true` rolls back and rejects with the wrapping
message; the second query is never executed. -/
theorem executeQueries_failure_witness :
    executeQueries engineExecFailQ1 ⟨"db", some 0⟩ [] ["q1", "q2"] true
      = (.exn ("Transaction failed, rolled back: " ++ "bad"),
         [ECall.exec (some 0) "BEGIN TRANSACTION;"]
           ++ [.exec (some 0) "q1", .exec (some 0) "ROLLBACK;"]) := by
  have h := executeQueries_failure_policy engineExecFailQ1 "db" 0 [] []
    "q1" ["q2"] "bad" [ECall.exec (some 0) "BEGIN TRANSACTION;"] true
    (by decide) (ExecAllOk.nil _) (by decide) (fun _ => by decide)
  exact h.1

end Worker

/-! ## Claim C6 (dispatcher reply discipline) -/

namespace Worker

/-- C6 counterexample: a prepared-statement batch whose first statement
fails to compile makes `executePreparedStatement`'s promise hang (C4),
so `self.onmessage` suspends forever on the `await` and posts no reply
at all — not exactly one reply per command message. -/
theorem onmessage_no_reply_cex :
    (onmessage enginePrepFail (some ⟨"db", some 0⟩) []
        ⟨"executePreparedStatements", "", "", [], [⟨"NOT SQL", []⟩], [],
         true, "op9"⟩).1
      = DispatchOut.hung := by
  decide

/-- C6 (amended): the dispatcher posts at most one reply per command
message, and any posted reply echoes the message's operationId; when the
selected handler settles, exactly one reply is posted — a normal
outcome as a result envelope and a caught failure as an
`{operationId, error}` envelope — while a handler whose promise never
settles yields no reply. -/
theorem onmessage_single_reply (B : EngineBehavior) (inst : Option Helper)
    (tr : List ECall) (m : InMsg) :
    ((onmessage B inst tr m).1 = DispatchOut.hung
      ∨ ∃ o, (onmessage B inst tr m).1 = DispatchOut.posted o
          ∧ outOpId o = m.operationId)
    ∧ (∀ e, (dispatchStep B inst tr m).1 = JsOut.exn e →
        (onmessage B inst tr m).1
          = DispatchOut.posted (OutMsg.error m.operationId e))
    ∧ (∀ v, (dispatchStep B inst tr m).1 = JsOut.ok v →
        (onmessage B inst tr m).1
          = DispatchOut.posted (OutMsg.result m.operationId v)) := by
  rcases hds : dispatchStep B inst tr m with ⟨r, i', tr'⟩
  cases r with
  | ok v =>
      refine ⟨Or.inr ⟨.result m.operationId v, ?_, rfl⟩, ?_, ?_⟩
      · simp [onmessage, hds]
      · intro e he
        simp at he
      · intro v' hv
        simp at hv
        subst hv
        simp [onmessage, hds]
  | exn e =>
      refine ⟨Or.inr ⟨.error m.operationId e, ?_, rfl⟩, ?_, ?_⟩
      · simp [onmessage, hds]
      · intro e' he
        simp at he
        subst he
        simp [onmessage, hds]
      · intro v hv
        simp at hv
  | hang =>
      refine ⟨Or.inl ?_, ?_, ?_⟩
      · simp [onmessage, hds]
      · intro e he
        simp at he
      · intro v hv
        simp at hv

/-- C6 witness: a method call on the undefined `dbInstance` is caught
and posted as an error envelope echoing the id; an unknown action posts
a result envelope echoing the id. -/
theorem onmessage_single_reply_witness :
    (onmessage engineAllOk none []
        ⟨"executeRawQuery", "", "SELECT 1", [], [], [], true, "op1"⟩).1
      = DispatchOut.posted (.error "op1" undefinedCallMsg)
    ∧ (onmessage engineAllOk none []
        ⟨"nope", "", "", [], [], [], true, "op2"⟩).1
      = DispatchOut.posted (.result "op2" RVal.unknownAction) := by
  constructor
  · exact (onmessage_single_reply engineAllOk none []
      ⟨"executeRawQuery", "", "SELECT 1", [], [], [], true, "op1"⟩).2.1
      undefinedCallMsg (by decide)
  · exact (onmessage_single_reply engineAllOk none []
      ⟨"nope", "", "", [], [], [], true, "op2"⟩).2.2
      RVal.unknownAction (by decide)

end Worker

/-! ## Claims C9 and C10 (null-handle guard and close) -/

namespace Worker

/-- C9 counterexample: `executePreparedStatements` performs no
`this.db` null check — on a helper whose `db` field is null it calls
the engine (`exec BEGIN` with the null handle, then `exec ROLLBACK`)
and returns the engine failure as a `(error, null)` pair instead of
failing fast with a not-connected error before any engine call. -/
theorem nullDb_eps_engine_call_cex :
    executePreparedStatements engineBeginFail ⟨"db", none⟩ []
        [⟨"q", []⟩] true
      = (.ok (some "misuse", none),
         [ECall.exec none "BEGIN TRANSACTION;", ECall.exec none "ROLLBACK;"]) := by
  decide

/-- C9 (amended): with a null `db` field, `executeRawQuery` and
`executeQueries` fail fast with the not-connected error before any
engine call (the trace is unchanged), but `executePreparedStatements`
has no such check: its first action is always an engine `exec BEGIN`
carrying the null handle. -/
theorem nullDb_guard (B : EngineBehavior) (tr : List ECall) (name : String)
    (sql : String) (queries : List String) (stmts : List Stmt)
    (rbFlag : Bool) :
    executeRawQuery B ⟨name, none⟩ tr sql
      = (.exn "Database not initialized", tr)
    ∧ executeQueries B ⟨name, none⟩ tr queries rbFlag
        = (.exn "Database not initialized", tr)
    ∧ ∃ rest, (executePreparedStatements B ⟨name, none⟩ tr stmts rbFlag).2
        = tr ++ ECall.exec none "BEGIN TRANSACTION;" :: rest := by
  refine ⟨rfl, rfl, ?_⟩
  cases h1 : asErr (B.reply tr (.exec none "BEGIN TRANSACTION;")) with
  | some m =>
      obtain ⟨ext2, he2⟩ := catchBlock_mono B ⟨name, none⟩
        (tr ++ [.exec none "BEGIN TRANSACTION;"]) rbFlag m
      refine ⟨ext2, ?_⟩
      simp only [executePreparedStatements, callE, h1]
      rw [he2]
      simp
  | none =>
      rcases hsl : stmtLoop B ⟨name, none⟩
          (tr ++ [.exec none "BEGIN TRANSACTION;"]) stmts [] with ⟨o, tr2⟩
      obtain ⟨ext1, he1⟩ := stmtLoop_mono B ⟨name, none⟩ stmts
        (tr ++ [.exec none "BEGIN TRANSACTION;"]) []
      rw [hsl] at he1
      simp at he1
      cases o with
      | hang =>
          refine ⟨ext1, ?_⟩
          simp only [executePreparedStatements, callE, h1, hsl]
          simp [he1]
      | exn m =>
          obtain ⟨ext2, he2⟩ := catchBlock_mono B ⟨name, none⟩ tr2 rbFlag m
          refine ⟨ext1 ++ ext2, ?_⟩
          simp only [executePreparedStatements, callE, h1, hsl]
          rw [he2, he1]
          simp
      | ok ids =>
          cases hc2 : asErr (B.reply tr2 (.exec none "COMMIT;")) with
          | some m2 =>
              obtain ⟨ext3, he3⟩ := catchBlock_mono B ⟨name, none⟩
                (tr2 ++ [.exec none "COMMIT;"]) rbFlag m2
              refine ⟨ext1 ++ [.exec none "COMMIT;"] ++ ext3, ?_⟩
              simp only [executePreparedStatements, callE, h1, hsl, hc2]
              rw [he3, he1]
              simp
          | none =>
              refine ⟨ext1 ++ [.exec none "COMMIT;"], ?_⟩
              simp only [executePreparedStatements, callE, h1, hsl, hc2]
              simp [he1]

/-- C10: a successful `closeDatabase` leaves the `db` field non-null
(the method never assigns `this.db`), so a second `closeDatabase`
invokes the engine's `close` again on the already-closed handle, and a
subsequent `executeRawQuery` passes the non-null check and reaches the
engine with the closed handle. -/
theorem closeDatabase_leaves_db_set (B : EngineBehavior) (name : String)
    (h : Int) (tr : List ECall) (sql : String)
    (hc1 : asErr (B.reply tr (.close h)) = none)
    (hc2 : asErr (B.reply (tr ++ [.close h]) (.close h)) = none) :
    closeDatabase B ⟨name, some h⟩ tr
      = (.ok (), ⟨name, some h⟩, tr ++ [.close h])
    ∧ closeDatabase B ⟨name, some h⟩ (tr ++ [.close h])
        = (.ok (), ⟨name, some h⟩, tr ++ [.close h, .close h])
    ∧ (executeRawQuery B ⟨name, some h⟩ (tr ++ [.close h, .close h]) sql).2
        = tr ++ [.close h, .close h, .exec (some h) sql] := by
  refine ⟨?_, ?_, ?_⟩
  · simp only [closeDatabase, callE, hc1]
  · simp only [closeDatabase, callE, hc2]
    simp
  · cases hr : asErr (B.reply (tr ++ [ECall.close h, ECall.close h])
        (.exec (some h) sql)) with
    | some m =>
        simp only [executeRawQuery, callE, hr]
        simp
    | none =>
        simp only [executeRawQuery, callE, hr]
        simp

/-- C10 witness: close twice on handle 7, then select — `db` stays
`some 7`, close is invoked twice, and the select reaches the engine. -/
theorem closeDatabase_leaves_db_set_witness :
    closeDatabase engineAllOk ⟨"db", some 7⟩ []
      = (.ok (), ⟨"db", some 7⟩, [] ++ [ECall.close 7])
    ∧ closeDatabase engineAllOk ⟨"db", some 7⟩ ([] ++ [ECall.close 7])
        = (.ok (), ⟨"db", some 7⟩, [] ++ [ECall.close 7, ECall.close 7])
    ∧ (executeRawQuery engineAllOk ⟨"db", some 7⟩
          ([] ++ [ECall.close 7, ECall.close 7]) "SELECT 1").2
        = [] ++ [ECall.close 7, ECall.close 7, ECall.exec (some 7) "SELECT 1"] :=
  closeDatabase_leaves_db_set engineAllOk "db" 7 [] "SELECT 1"
    (by decide) (by decide)

end Worker

/-! ## Claim C8 (Query Reader) -/

namespace Reader

theorem rowLoop_eq (s : StmtSpec) (rows : List (List SQLData)) :
    ∀ records, rowLoop s rows records = records ++ rows.map (buildRow s) := by
  induction rows with
  | nil => intro records; simp [rowLoop]
  | cons r rest ih =>
      intro records
      simp [rowLoop, ih]

theorem stmtIter_eq (args : List String) (stmts : List StmtSpec) :
    ∀ records evs,
      stmtIter args stmts records evs
        = (records ++ (stmts.map (fun s => s.rows.map (buildRow s))).flatten,
           evs ++ if args.isEmpty then []
                  else stmts.map (fun _ => REvent.bound args)) := by
  induction stmts with
  | nil => intro records evs; simp [stmtIter]
  | cons s rest ih =>
      intro records evs
      simp only [stmtIter]
      rw [ih, rowLoop_eq]
      cases hA : args.isEmpty <;> simp [hA]

/-- C8: the Query Reader executes every statement the engine finds in
the SQL text, binds the arguments to each statement exactly when they
are provided (non-empty), and returns, in one ordered sequence
(statement order, then row order), one row object per engine-served
row, each column's value extracted by dispatching on its declared type
tag — integer, float and blob tags use the typed getters, and
`column_text` is the fallback for the TEXT tag and every other tag. -/
theorem executeRawQuery_reads_typed_rows (parse : String → List StmtSpec)
    (sql : String) (args : List String) :
    executeRawQuery parse sql args
      = (((parse sql).map (fun s => s.rows.map (buildRow s))).flatten,
         if args.isEmpty then []
         else (parse sql).map (fun _ => REvent.bound args))
    ∧ ∀ v : SQLData, readCell v
        = (if column_type v = 1 then JSVal.jint (column_int v)
           else if column_type v = 2 then JSVal.jfloat (column_float v)
           else if column_type v = 4 then JSVal.jblob (column_blob v)
           else JSVal.jtext (column_text v)) := by
  constructor
  · simpa [executeRawQuery] using stmtIter_eq args (parse sql) [] []
  · intro v
    cases v <;> rfl

end Reader

end SqliteWasm
